import Mathlib

/-!
Shallow embedding of src/encdl/encdl.py (the MB tile builder pipeline) and
proofs about its orchestration logic: the spatial filters of the Enc class,
the grouping of chart-cell directories, the tiling-stage driver, the merge
stage, and the style/config synthesizer.

Python floats are modelled by rationals: every comparison the code performs
on coordinates is an exact order comparison, which the linear order on the
rationals captures.
-/

namespace Encdl

/-- A four-number planar envelope `(xmin, xmax, ymin, ymax)`, the layout
used both by the `--bb` command line argument (min_lon, max_lon, min_lat,
max_lat) and by `ogr` `GetExtent` (minX, maxX, minY, maxY). -/
structure BBox where
  xmin : ℚ
  xmax : ℚ
  ymin : ℚ
  ymax : ℚ
  deriving DecidableEq, Repr

/-- The `Enc` object as built by `Enc.__init__` (encdl.py lines 60-69).
`fname` is the constructor argument; `bb` is the extent read from the S57
driver, `none` when the read raised (the `except` branch only logs).
`band` is `Option Nat` because line 62, `self.band: int(fname.stem[2])`,
is a variable annotation, not an assignment: Python never binds the
attribute (nor evaluates the annotation expression), so the constructed
object carries no band value. -/
structure Enc where
  fname : String
  band : Option Nat
  bb : Option BBox
  deriving DecidableEq, Repr

/-- `Enc.__init__(fname)` with the S57 extent read abstracted as an input
(`readExtent = none` models the exception branch). The `band` attribute is
never assigned (see `Enc`). -/
def Enc.init (fname : String) (readExtent : Option BBox) : Enc :=
  { fname := fname, band := none, bb := readExtent }

/-- `Enc.within(self, env)` (encdl.py lines 71-78): false when the extent
is unreadable, otherwise
`env[0] < bb[0] and env[1] > bb[1] and env[2] < bb[2] and env[3] > bb[3]`. -/
def Enc.within (e : Enc) (env : BBox) : Bool :=
  match e.bb with
  | none => false
  | some b =>
    decide (env.xmin < b.xmin) && decide (env.xmax > b.xmax) &&
    decide (env.ymin < b.ymin) && decide (env.ymax > b.ymax)

/-- `Enc.intersects(self, env)` (encdl.py lines 80-90): false when the
extent is unreadable, otherwise
`not (ax1 > bx2 or ax2 < bx1 or ay1 > by2 or ay2 < by1)` with
`ax1, ax2, ay1, ay2 = env` and `bx1, bx2, by1, by2 = self.bb`. -/
def Enc.intersects (e : Enc) (env : BBox) : Bool :=
  match e.bb with
  | none => false
  | some b =>
    !(decide (env.xmin > b.xmax) || decide (env.xmax < b.xmin) ||
      decide (env.ymin > b.ymax) || decide (env.ymax < b.ymin))

/-- Spec-side predicate: the envelope `env` strictly contains the box `b`
on all four sides. -/
def StrictlyContains (env b : BBox) : Prop :=
  env.xmin < b.xmin ∧ b.xmax < env.xmax ∧ env.ymin < b.ymin ∧ b.ymax < env.ymax

/-- Spec-side predicate: the two closed axis-aligned boxes are disjoint on
at least one axis. -/
def DisjointBoxes (env b : BBox) : Prop :=
  b.xmax < env.xmin ∨ env.xmax < b.xmin ∨ b.ymax < env.ymin ∨ env.ymax < b.ymin

instance (env b : BBox) : Decidable (StrictlyContains env b) := by
  unfold StrictlyContains; infer_instance

instance (env b : BBox) : Decidable (DisjointBoxes env b) := by
  unfold DisjointBoxes; infer_instance

/-- C7: for a cell with a readable extent, `within` is true iff the query
envelope strictly contains the cell box on all four sides, and any
configuration sharing an edge returns false. -/
theorem within_iff_strictlyContains (e : Enc) (b env : BBox) (h : e.bb = some b) :
    (e.within env = true ↔ StrictlyContains env b) ∧
    ((b.xmin = env.xmin ∨ b.xmax = env.xmax ∨ b.ymin = env.ymin ∨ b.ymax = env.ymax) →
      e.within env = false) := by
  constructor
  · simp only [Enc.within, h, StrictlyContains, Bool.and_eq_true, decide_eq_true_eq]
    constructor
    · rintro ⟨⟨⟨h1, h2⟩, h3⟩, h4⟩
      exact ⟨h1, h2, h3, h4⟩
    · rintro ⟨h1, h2, h3, h4⟩
      exact ⟨⟨⟨h1, h2⟩, h3⟩, h4⟩
  · intro hedge
    simp only [Enc.within, h, Bool.and_eq_false_iff, decide_eq_false_iff_not, not_lt, gt_iff_lt]
    rcases hedge with h1 | h2 | h3 | h4
    · exact Or.inl (Or.inl (Or.inl (le_of_eq h1)))
    · exact Or.inl (Or.inl (Or.inr (le_of_eq h2.symm)))
    · exact Or.inl (Or.inr (le_of_eq h3))
    · exact Or.inr (le_of_eq h4.symm)

/-- Witness for C7 at a concrete cell and envelope. -/
theorem within_iff_strictlyContains_witness :
    ((Enc.init "US5NY33.000" (some ⟨1, 2, 1, 2⟩)).within ⟨0, 3, 0, 3⟩ = true ↔
      StrictlyContains ⟨0, 3, 0, 3⟩ ⟨1, 2, 1, 2⟩) ∧
    (((1 : ℚ) = 0 ∨ (2 : ℚ) = 3 ∨ (1 : ℚ) = 0 ∨ (2 : ℚ) = 3) →
      (Enc.init "US5NY33.000" (some ⟨1, 2, 1, 2⟩)).within ⟨0, 3, 0, 3⟩ = false) :=
  within_iff_strictlyContains (Enc.init "US5NY33.000" (some ⟨1, 2, 1, 2⟩))
    ⟨1, 2, 1, 2⟩ ⟨0, 3, 0, 3⟩ rfl

/-- C8: for a cell with a readable extent, `intersects` is false iff the
boxes are disjoint on at least one axis. -/
theorem intersects_false_iff_disjoint (e : Enc) (b env : BBox) (h : e.bb = some b) :
    e.intersects env = false ↔ DisjointBoxes env b := by
  simp only [Enc.intersects, h, DisjointBoxes, Bool.not_eq_false', Bool.or_eq_true,
    decide_eq_true_eq, gt_iff_lt]
  constructor
  · rintro (((h1 | h2) | h3) | h4)
    · exact Or.inl h1
    · exact Or.inr (Or.inl h2)
    · exact Or.inr (Or.inr (Or.inl h3))
    · exact Or.inr (Or.inr (Or.inr h4))
  · rintro (h1 | h2 | h3 | h4)
    · exact Or.inl (Or.inl (Or.inl h1))
    · exact Or.inl (Or.inl (Or.inr h2))
    · exact Or.inl (Or.inr h3)
    · exact Or.inr h4

/-- Witness for C8 at a concrete cell and envelope (edge-touching boxes:
not disjoint, and indeed `intersects` is not false). -/
theorem intersects_false_iff_disjoint_witness :
    (Enc.init "US5NY33.000" (some ⟨1, 2, 1, 2⟩)).intersects ⟨2, 3, 0, 3⟩ = false ↔
      DisjointBoxes ⟨2, 3, 0, 3⟩ ⟨1, 2, 1, 2⟩ :=
  intersects_false_iff_disjoint (Enc.init "US5NY33.000" (some ⟨1, 2, 1, 2⟩))
    ⟨1, 2, 1, 2⟩ ⟨2, 3, 0, 3⟩ rfl

/-- C9: a cell whose extent could not be read fails both spatial tests for
every query envelope. -/
theorem unreadable_extent_never_matches (e : Enc) (h : e.bb = none) (env : BBox) :
    e.within env = false ∧ e.intersects env = false := by
  simp [Enc.within, Enc.intersects, h]

/-- Witness for C9 at a concrete cell. -/
theorem unreadable_extent_never_matches_witness :
    (Enc.init "US5NY33.000" none).within ⟨0, 3, 0, 3⟩ = false ∧
    (Enc.init "US5NY33.000" none).intersects ⟨0, 3, 0, 3⟩ = false :=
  unreadable_extent_never_matches (Enc.init "US5NY33.000" none) rfl ⟨0, 3, 0, 3⟩

/-- C2: the constructor never assigns the `band` attribute, whatever the
file name and however the extent read goes: line 62 of encdl.py is a type
annotation and Python binds nothing. -/
theorem encInit_band_unassigned (fname : String) (readExtent : Option BBox) :
    (Enc.init fname readExtent).band = none ∧
    (Enc.init fname readExtent).band ≠ some 5 := by
  simp [Enc.init]

/-- The selection predicate of the per-layer indexing path
(`make_geojsons`, encdl.py line 165): the filter keeps a cell exactly when
`Enc(x).intersects(bb)` is truthy. -/
def makeGeojsonsSelect (cell : Enc) (bb : BBox) : Bool :=
  cell.intersects bb

/-- C4 counterexample: a cell whose box shares the left edge of the query
envelope is selected by `make_geojsons` although the strict containment
check fails, so selection is not equivalent to `within`. -/
theorem makeGeojsonsSelect_not_within :
    makeGeojsonsSelect (Enc.init "US5NY33.000" (some ⟨1, 2, 1, 2⟩)) ⟨1, 3, 0, 3⟩ = true ∧
    (Enc.init "US5NY33.000" (some ⟨1, 2, 1, 2⟩)).within ⟨1, 3, 0, 3⟩ = false := by
  constructor <;> rfl

/-- C4 amended: in the per-layer path a cell with readable extent is
selected iff the geometric intersection test passes, i.e. iff the query
box and the cell box are not disjoint on any axis. -/
theorem makeGeojsonsSelect_iff_intersects (cell : Enc) (b bb : BBox)
    (h : cell.bb = some b) :
    makeGeojsonsSelect cell bb = true ↔ ¬ DisjointBoxes bb b := by
  have h8 := intersects_false_iff_disjoint cell b bb h
  unfold makeGeojsonsSelect
  constructor
  · intro hsel hdis
    rw [h8.mpr hdis] at hsel
    exact Bool.false_ne_true hsel
  · intro hnd
    cases hsel : cell.intersects bb with
    | false => exact absurd (h8.mp hsel) hnd
    | true => rfl

/-- Witness for the amended C4 at a concrete cell and envelope. -/
theorem makeGeojsonsSelect_iff_intersects_witness :
    makeGeojsonsSelect (Enc.init "US5NY33.000" (some ⟨1, 2, 1, 2⟩)) ⟨1, 3, 0, 3⟩ = true ↔
      ¬ DisjointBoxes ⟨1, 3, 0, 3⟩ ⟨1, 2, 1, 2⟩ :=
  makeGeojsonsSelect_iff_intersects (Enc.init "US5NY33.000" (some ⟨1, 2, 1, 2⟩))
    ⟨1, 2, 1, 2⟩ ⟨1, 3, 0, 3⟩ rfl

/-- `Path.unlink()` on a filesystem modelled as the list of existing
paths: removes the path, raises (`none`) if it does not exist. -/
def unlink (fs : List String) (f : String) : Option (List String) :=
  if f ∈ fs then some (fs.filter (fun g => decide (g ≠ f))) else none

/-- Outcome of one `mergetiles` call: whether a merge failure was logged,
and the filesystem after the unconditional unlink loop (`none` when an
unlink raised). -/
structure MergeOutcome where
  loggedFailure : Bool
  fsAfter : Option (List String)
  deriving DecidableEq, Repr

/-- `mergetiles(infiles, outfile)` (encdl.py lines 289-307): runs
`tile-join`, logs on nonzero exit, then unlinks every input file —
the unlink loop runs on both the success and the failure path. The
external tool exit code and the pre-state of the filesystem are inputs. -/
def mergetiles (returncode : Int) (infiles : List String) (fs : List String) :
    MergeOutcome :=
  { loggedFailure := decide (returncode ≠ 0),
    fsAfter := infiles.foldlM unlink fs }

/-- Anything surviving the unlink loop was there before and is not one of
the unlinked files. -/
theorem foldlM_unlink_not_mem (l : List String) (fs fs' : List String)
    (h : l.foldlM unlink fs = some fs') : ∀ f ∈ fs', f ∈ fs ∧ f ∉ l := by
  induction l generalizing fs with
  | nil =>
    rw [List.foldlM_nil] at h
    have heq : fs = fs' := Option.some.inj h
    subst heq
    exact fun f hf => ⟨hf, List.not_mem_nil f⟩
  | cons a l ih =>
    rw [List.foldlM_cons] at h
    cases ha : unlink fs a with
    | none => rw [ha] at h; exact Option.noConfusion h
    | some fs1 =>
      rw [ha] at h
      have h2 : List.foldlM unlink fs1 l = some fs' := h
      intro f hf
      obtain ⟨hf1, hfl⟩ := ih fs1 h2 f hf
      unfold unlink at ha
      by_cases hmem : a ∈ fs
      · simp only [hmem, if_true, Option.some.injEq] at ha
        subst ha
        rw [List.mem_filter] at hf1
        refine ⟨hf1.1, ?_⟩
        intro hcon
        rcases List.mem_cons.mp hcon with hfa | hfl2
        · exact absurd (decide_eq_true_eq.mp hf1.2) (fun hne => hne hfa)
        · exact hfl hfl2
      · simp [hmem] at ha

/-- When the inputs are distinct files all present, the unlink loop
raises nowhere. -/
theorem foldlM_unlink_isSome (l : List String) (fs : List String)
    (hnd : l.Nodup) (hsub : ∀ f ∈ l, f ∈ fs) :
    (l.foldlM unlink fs).isSome := by
  induction l generalizing fs with
  | nil => simp
  | cons a l ih =>
    rw [List.foldlM_cons]
    have ha : a ∈ fs := hsub a (List.mem_cons_self a l)
    unfold unlink
    simp only [ha, if_true, Option.some_bind]
    refine ih _ (List.Nodup.of_cons hnd) ?_
    intro f hf
    rw [List.mem_filter]
    refine ⟨hsub f (List.mem_cons_of_mem a hf), ?_⟩
    rw [decide_eq_true_eq]
    intro hfa
    subst hfa
    exact (List.nodup_cons.mp hnd).1 hf

/-- C1 counterexample: a failed merge (exit code 1) of one input archive
logs the failure and still deletes the input — the post-state filesystem
is empty instead of retaining the archive. -/
theorem mergetiles_failure_deletes_input :
    (mergetiles 1 ["BAND5_LNDARE.mbtiles"] ["BAND5_LNDARE.mbtiles"]).loggedFailure = true ∧
    (mergetiles 1 ["BAND5_LNDARE.mbtiles"] ["BAND5_LNDARE.mbtiles"]).fsAfter = some [] := by
  constructor <;> rfl

/-- C1 amended: whatever the exit code of the merge tool, every input
archive is deleted (the unlink loop is unconditional); a failure is
logged exactly when the exit code is nonzero. -/
theorem mergetiles_deletes_inputs (returncode : Int) (infiles fs : List String)
    (hnd : infiles.Nodup) (hsub : ∀ f ∈ infiles, f ∈ fs) :
    ∃ fs', (mergetiles returncode infiles fs).fsAfter = some fs' ∧
      (∀ f ∈ infiles, f ∉ fs') ∧
      ((mergetiles returncode infiles fs).loggedFailure = true ↔ returncode ≠ 0) := by
  obtain ⟨fs', hfs'⟩ := Option.isSome_iff_exists.mp (foldlM_unlink_isSome infiles fs hnd hsub)
  refine ⟨fs', hfs', ?_, by simp [mergetiles]⟩
  intro f hf hcon
  exact (foldlM_unlink_not_mem infiles fs fs' hfs' f hcon).2 hf

/-- Witness for the amended C1: successful merge of two archives leaves
neither on disk and logs no failure. -/
theorem mergetiles_deletes_inputs_witness :
    ∃ fs', (mergetiles 0 ["a.mbtiles", "b.mbtiles"] ["a.mbtiles", "b.mbtiles", "keep"]).fsAfter
        = some fs' ∧
      (∀ f ∈ ["a.mbtiles", "b.mbtiles"], f ∉ fs') ∧
      ((mergetiles 0 ["a.mbtiles", "b.mbtiles"]
          ["a.mbtiles", "b.mbtiles", "keep"]).loggedFailure = true ↔ (0 : Int) ≠ 0) :=
  mergetiles_deletes_inputs 0 ["a.mbtiles", "b.mbtiles"] ["a.mbtiles", "b.mbtiles", "keep"]
    (by decide) (by decide)

/-- The grouping key computed by `make_geojsons` (encdl.py line 159):
`key = (entry.stem[2], 'US')`. The region component of the key is the
constant string `"US"`; the slice `entry.stem[3:5]` appears only in a
comment. `none` models the IndexError on a name shorter than 3. -/
def groupKey (stem : String) : Option (Char × String) :=
  match stem.data[2]? with
  | some c => some (c, "US")
  | none => none

/-- An insertion-ordered association map from grouping key to the list of
directory entries, the shape of the `output_geojsons` dict. -/
abbrev GroupMap := List ((Char × String) × List String)

/-- `output_geojsons.setdefault(key, list()).append(entry)` on the
association-list model of the dict. -/
def insertEntry (m : GroupMap) (key : Char × String) (e : String) : GroupMap :=
  match m with
  | [] => [(key, [e])]
  | (k, v) :: rest =>
    if k = key then (k, v ++ [e]) :: rest else (k, v) :: insertEntry rest key e

/-- One iteration of the directory-grouping loop of `make_geojsons`. -/
def groupStep (m : GroupMap) (e : String) : Option GroupMap :=
  (groupKey e).map (fun k => insertEntry m k e)

/-- The directory-grouping loop of `make_geojsons` (encdl.py lines
157-160), starting from the empty dict. -/
def groupDirs (entries : List String) : Option GroupMap :=
  entries.foldlM groupStep []

/-- Inserting an entry under its own key preserves the invariant that
every bucket holds only entries with that bucket key. -/
theorem insertEntry_sound (m : GroupMap) (key : Char × String) (e : String)
    (hm : ∀ kv ∈ m, ∀ x ∈ kv.2, groupKey x = some kv.1)
    (he : groupKey e = some key) :
    ∀ kv ∈ insertEntry m key e, ∀ x ∈ kv.2, groupKey x = some kv.1 := by
  induction m with
  | nil =>
    intro kv hkv x hx
    simp only [insertEntry, List.mem_singleton] at hkv
    subst hkv
    simp only [List.mem_singleton] at hx
    subst hx
    exact he
  | cons p rest ih =>
    obtain ⟨k, v⟩ := p
    intro kv hkv x hx
    simp only [insertEntry] at hkv
    by_cases hk : k = key
    · simp only [if_pos hk] at hkv
      rcases List.mem_cons.mp hkv with hh | ht
      · subst hh
        rcases List.mem_append.mp hx with hv | hee
        · exact hm (k, v) (List.mem_cons_self _ _) x hv
        · rw [List.mem_singleton.mp hee, hk]
          exact he
      · exact hm kv (List.mem_cons_of_mem _ ht) x hx
    · simp only [if_neg hk] at hkv
      rcases List.mem_cons.mp hkv with hh | ht
      · subst hh
        exact hm (k, v) (List.mem_cons_self _ _) x hx
      · exact ih (fun kv2 h2 => hm kv2 (List.mem_cons_of_mem _ h2)) kv ht x hx

/-- After the whole grouping fold, every bucket holds only entries whose
key is the bucket key. -/
theorem groupDirs_sound_aux (entries : List String) (m0 m : GroupMap)
    (hm0 : ∀ kv ∈ m0, ∀ x ∈ kv.2, groupKey x = some kv.1)
    (h : entries.foldlM groupStep m0 = some m) :
    ∀ kv ∈ m, ∀ x ∈ kv.2, groupKey x = some kv.1 := by
  induction entries generalizing m0 with
  | nil =>
    rw [List.foldlM_nil] at h
    have heq : m0 = m := Option.some.inj h
    subst heq
    exact hm0
  | cons a l ih =>
    rw [List.foldlM_cons] at h
    cases hka : groupKey a with
    | none =>
      unfold groupStep at h
      rw [hka] at h
      exact Option.noConfusion h
    | some ka =>
      have hstep : groupStep m0 a = some (insertEntry m0 ka a) := by
        unfold groupStep; rw [hka]; rfl
      rw [hstep] at h
      have h2 : List.foldlM groupStep (insertEntry m0 ka a) l = some m := h
      exact ih (insertEntry m0 ka a) (insertEntry_sound m0 ka a hm0 hka) h2

/-- An entry already sitting in some bucket stays in a bucket with the
same key across any later insertion. -/
theorem insertEntry_mem_preserved (m : GroupMap) (key : Char × String) (e x : String)
    (k : Char × String) (v : List String) (hkv : (k, v) ∈ m) (hx : x ∈ v) :
    ∃ v', (k, v') ∈ insertEntry m key e ∧ x ∈ v' := by
  induction m with
  | nil => exact absurd hkv (List.not_mem_nil _)
  | cons p rest ih =>
    obtain ⟨k0, v0⟩ := p
    simp only [insertEntry]
    by_cases hk : k0 = key
    · simp only [if_pos hk]
      rcases List.mem_cons.mp hkv with hh | ht
      · obtain ⟨hk1, hk2⟩ := Prod.mk.injEq .. ▸ hh
        refine ⟨v0 ++ [e], ?_, ?_⟩
        · rw [hk1]; exact List.mem_cons_self _ _
        · exact List.mem_append_left _ (hk2 ▸ hx)
      · exact ⟨v, List.mem_cons_of_mem _ ht, hx⟩
    · simp only [if_neg hk]
      rcases List.mem_cons.mp hkv with hh | ht
      · obtain ⟨hk1, hk2⟩ := Prod.mk.injEq .. ▸ hh
        exact ⟨v0, hk1 ▸ List.mem_cons_self _ _, hk2 ▸ hx⟩
      · obtain ⟨v', hv', hxv'⟩ := ih ht
        exact ⟨v', List.mem_cons_of_mem _ hv', hxv'⟩

/-- Inserting an entry puts it in a bucket for its key. -/
theorem insertEntry_mem_self (m : GroupMap) (key : Char × String) (e : String) :
    ∃ v, (key, v) ∈ insertEntry m key e ∧ e ∈ v := by
  induction m with
  | nil => exact ⟨[e], List.mem_singleton.mpr rfl, List.mem_singleton.mpr rfl⟩
  | cons p rest ih =>
    obtain ⟨k0, v0⟩ := p
    simp only [insertEntry]
    by_cases hk : k0 = key
    · simp only [if_pos hk]
      exact ⟨v0 ++ [e], hk ▸ List.mem_cons_self _ _,
        List.mem_append_right _ (List.mem_singleton.mpr rfl)⟩
    · simp only [if_neg hk]
      obtain ⟨v, hv, hev⟩ := ih
      exact ⟨v, List.mem_cons_of_mem _ hv, hev⟩

/-- Bucket membership persists through the rest of the grouping fold. -/
theorem foldlM_group_mem_preserved (entries : List String) (m0 m : GroupMap)
    (h : entries.foldlM groupStep m0 = some m) (k : Char × String) (v : List String)
    (x : String) (hkv : (k, v) ∈ m0) (hx : x ∈ v) :
    ∃ v', (k, v') ∈ m ∧ x ∈ v' := by
  induction entries generalizing m0 v with
  | nil =>
    rw [List.foldlM_nil] at h
    have heq : m0 = m := Option.some.inj h
    subst heq
    exact ⟨v, hkv, hx⟩
  | cons a l ih =>
    rw [List.foldlM_cons] at h
    cases hka : groupKey a with
    | none =>
      unfold groupStep at h
      rw [hka] at h
      exact Option.noConfusion h
    | some ka =>
      have hstep : groupStep m0 a = some (insertEntry m0 ka a) := by
        unfold groupStep; rw [hka]; rfl
      rw [hstep] at h
      have h2 : List.foldlM groupStep (insertEntry m0 ka a) l = some m := h
      obtain ⟨v1, hv1, hxv1⟩ := insertEntry_mem_preserved m0 ka a x k v hkv hx
      exact ih (insertEntry m0 ka a) h2 v1 hv1 hxv1

/-- Every entry of the scan ends up in a bucket for its own key. -/
theorem groupDirs_complete_aux (entries : List String) (m0 m : GroupMap)
    (h : entries.foldlM groupStep m0 = some m) (e : String) (he : e ∈ entries)
    (k : Char × String) (hk : groupKey e = some k) :
    ∃ v, (k, v) ∈ m ∧ e ∈ v := by
  induction entries generalizing m0 with
  | nil => exact absurd he (List.not_mem_nil _)
  | cons a l ih =>
    rw [List.foldlM_cons] at h
    cases hka : groupKey a with
    | none =>
      unfold groupStep at h
      rw [hka] at h
      exact Option.noConfusion h
    | some ka =>
      have hstep : groupStep m0 a = some (insertEntry m0 ka a) := by
        unfold groupStep; rw [hka]; rfl
      rw [hstep] at h
      have h2 : List.foldlM groupStep (insertEntry m0 ka a) l = some m := h
      rcases List.mem_cons.mp he with hea | hel
      · subst hea
        have hkk : ka = k := Option.some.inj (hka ▸ hk)
        subst hkk
        obtain ⟨v1, hv1, hev1⟩ := insertEntry_mem_self m0 ka e
        obtain ⟨v', hv', hev'⟩ :=
          foldlM_group_mem_preserved l (insertEntry m0 ka e) m h2 ka v1 e hv1 hev1
        exact ⟨v', hv', hev'⟩
      · exact ih (insertEntry m0 ka a) h2 hel

/-- The bucket keys after an insertion: unchanged when the key is already
present, otherwise the key is appended. -/
theorem insertEntry_keys (m : GroupMap) (key : Char × String) (e : String) :
    (insertEntry m key e).map Prod.fst =
      if key ∈ m.map Prod.fst then m.map Prod.fst else m.map Prod.fst ++ [key] := by
  induction m with
  | nil => simp [insertEntry]
  | cons p rest ih =>
    obtain ⟨k0, v0⟩ := p
    simp only [insertEntry, List.map_cons, List.mem_cons]
    by_cases hk : k0 = key
    · simp [if_pos hk, hk]
    · have hne : ¬ key = k0 := fun hcon => hk hcon.symm
      simp only [if_neg hk, List.map_cons, ih]
      by_cases hmem : key ∈ rest.map Prod.fst
      · simp [hmem, hne]
      · simp [hmem, hne]

/-- Key distinctness is preserved by insertion. -/
theorem insertEntry_keys_nodup (m : GroupMap) (key : Char × String) (e : String)
    (h : (m.map Prod.fst).Nodup) : ((insertEntry m key e).map Prod.fst).Nodup := by
  rw [insertEntry_keys]
  by_cases hmem : key ∈ m.map Prod.fst
  · simpa [hmem] using h
  · simp only [if_neg hmem]
    exact List.Nodup.append h (List.nodup_singleton key)
      (fun a ha hb => hmem ((List.mem_singleton.mp hb) ▸ ha))

/-- Key distinctness is preserved by the whole grouping fold. -/
theorem foldlM_group_keys_nodup (entries : List String) (m0 m : GroupMap)
    (h0 : (m0.map Prod.fst).Nodup) (h : entries.foldlM groupStep m0 = some m) :
    (m.map Prod.fst).Nodup := by
  induction entries generalizing m0 with
  | nil =>
    rw [List.foldlM_nil] at h
    have heq : m0 = m := Option.some.inj h
    subst heq
    exact h0
  | cons a l ih =>
    rw [List.foldlM_cons] at h
    cases hka : groupKey a with
    | none =>
      unfold groupStep at h
      rw [hka] at h
      exact Option.noConfusion h
    | some ka =>
      have hstep : groupStep m0 a = some (insertEntry m0 ka a) := by
        unfold groupStep; rw [hka]; rfl
      rw [hstep] at h
      exact ih (insertEntry m0 ka a) (insertEntry_keys_nodup m0 ka a h0) h

/-- With distinct keys, a key identifies its bucket. -/
theorem keys_nodup_bucket_unique (m : GroupMap) (h : (m.map Prod.fst).Nodup)
    (k : Char × String) (v1 v2 : List String) (h1 : (k, v1) ∈ m) (h2 : (k, v2) ∈ m) :
    v1 = v2 := by
  induction m with
  | nil => exact absurd h1 (List.not_mem_nil _)
  | cons p rest ih =>
    obtain ⟨k0, v0⟩ := p
    rw [List.map_cons, List.nodup_cons] at h
    rcases List.mem_cons.mp h1 with hh1 | ht1 <;> rcases List.mem_cons.mp h2 with hh2 | ht2
    · obtain ⟨ha1, hb1⟩ := Prod.mk.injEq .. ▸ hh1
      obtain ⟨ha2, hb2⟩ := Prod.mk.injEq .. ▸ hh2
      rw [hb1, hb2]
    · obtain ⟨ha1, _⟩ := Prod.mk.injEq .. ▸ hh1
      exact absurd (List.mem_map.mpr ⟨(k, v2), ht2, (ha1 ▸ rfl : (k, v2).1 = k0)⟩) h.1
    · obtain ⟨ha2, _⟩ := Prod.mk.injEq .. ▸ hh2
      exact absurd (List.mem_map.mpr ⟨(k, v1), ht1, (ha2 ▸ rfl : (k, v1).1 = k0)⟩) h.1
    · exact ih h.2 ht1 ht2

/-- C3 counterexample: the directories US5NY33 and US5TX01 differ in their
region characters (index 3 onward) yet the grouping loop places them in
one and the same bucket, keyed by the band character and the constant
region placeholder. -/
theorem groupDirs_ignores_region :
    "US5NY33".data[3]? ≠ "US5TX01".data[3]? ∧
    groupDirs ["US5NY33", "US5TX01"] =
      some [(('5', "US"), ["US5NY33", "US5TX01"])] := by
  constructor
  · decide
  · rfl

/-- C3 amended: two indexed cell directories with readable band
characters land in the same bucket of the grouping map exactly when their
band characters (index 2) agree; the region characters play no role since
the region component of the key is the constant placeholder. -/
theorem groupDirs_same_unit_iff_band (entries : List String) (e1 e2 : String)
    (h1 : e1 ∈ entries) (h2 : e2 ∈ entries) (c1 c2 : Char)
    (hc1 : e1.data[2]? = some c1) (hc2 : e2.data[2]? = some c2)
    (m : GroupMap) (hm : groupDirs entries = some m) :
    (∃ kv ∈ m, e1 ∈ kv.2 ∧ e2 ∈ kv.2) ↔ c1 = c2 := by
  have hk1 : groupKey e1 = some (c1, "US") := by unfold groupKey; rw [hc1]
  have hk2 : groupKey e2 = some (c2, "US") := by unfold groupKey; rw [hc2]
  unfold groupDirs at hm
  constructor
  · rintro ⟨kv, hkv, hx1, hx2⟩
    have hsound := groupDirs_sound_aux entries [] m
      (fun kv2 hkv2 => absurd hkv2 (List.not_mem_nil _)) hm
    have g1 := hsound kv hkv e1 hx1
    have g2 := hsound kv hkv e2 hx2
    rw [hk1] at g1
    rw [hk2] at g2
    have : (c1, "US") = (c2, "US") := Option.some.inj (g1.trans g2.symm)
    exact (Prod.mk.injEq .. ▸ this).1
  · intro hcc
    subst hcc
    obtain ⟨v1, hv1, hm1⟩ := groupDirs_complete_aux entries [] m hm e1 h1 (c1, "US") hk1
    obtain ⟨v2, hv2, hm2⟩ := groupDirs_complete_aux entries [] m hm e2 h2 (c1, "US") hk2
    have hnd := foldlM_group_keys_nodup entries [] m (by simp) hm
    have hveq := keys_nodup_bucket_unique m hnd (c1, "US") v1 v2 hv1 hv2
    exact ⟨((c1, "US"), v1), hv1, hm1, hveq ▸ hm2⟩

/-- Witness for the amended C3 on a concrete scan of two directories that
share the band character but differ in region. -/
theorem groupDirs_same_unit_iff_band_witness :
    (∃ kv ∈ [(('5', "US"), ["US5NY33", "US5TX01"])],
        "US5NY33" ∈ kv.2 ∧ "US5TX01" ∈ kv.2) ↔ '5' = '5' :=
  groupDirs_same_unit_iff_band ["US5NY33", "US5TX01"] "US5NY33" "US5TX01"
    (by decide) (by decide) '5' '5' (by decide) (by decide)
    [(('5', "US"), ["US5NY33", "US5TX01"])] rfl

/-- The fixed band-to-zoom table `BAND2ZOOM` (encdl.py lines 31-38): only
bands 1 through 6 are populated; subscripting any other band raises
KeyError, modelled by `none`. -/
def BAND2ZOOM (band : Nat) : Option (Nat × Nat) :=
  match band with
  | 1 => some (0, 6)
  | 2 => some (6, 10)
  | 3 => some (10, 12)
  | 4 => some (12, 14)
  | 5 => some (14, 16)
  | 6 => some (16, 18)
  | _ => none

/-- The layer names of the `CFG` table in their iteration order
(encdl.py lines 93-112, the commented-out entries excluded). -/
def cfgLayerNames : List String := ["LNDARE", "DEPCNT", "SOUNDG"]

/-- `range(9, 0, -1)`: the band iteration of the tiling driver. -/
def bandRange : List Nat := [9, 8, 7, 6, 5, 4, 3, 2, 1]

/-- The (layer, band) iteration order of the tiling submission loop of
`process_geojsons` (encdl.py lines 224-225): layers outer, bands 9 down
to 1 inner. -/
def submitPairs : List (String × Nat) :=
  (cfgLayerNames.map (fun l => bandRange.map (fun b => (l, b)))).flatten

/-- One (layer, band) step of the submission loop of `process_geojsons`
(encdl.py lines 226-235): glob the matching geojson files, skip the group
when none match, otherwise evaluate `BAND2ZOOM[band][1]` — a KeyError
(`Except.error band`) for an unpopulated band — and record the submitted
task as (layer, band, maxzoom). -/
def submitStep (glob : String → Nat → List String)
    (acc : List (String × Nat × Nat)) (p : String × Nat) :
    Except Nat (List (String × Nat × Nat)) :=
  match glob p.1 p.2 with
  | [] => Except.ok acc
  | _ :: _ =>
    match BAND2ZOOM p.2 with
    | none => Except.error p.2
    | some z => Except.ok (acc ++ [(p.1, p.2, z.2)])

/-- The task-submission phase of `process_geojsons`: the fold of the
steps over every (layer, band) pair. An `Except.error` models the
KeyError escaping the driver loop itself, which aborts all remaining
submissions. -/
def processGeojsonsSubmit (glob : String → Nat → List String) :
    Except Nat (List (String × Nat × Nat)) :=
  submitPairs.foldlM (submitStep glob) []

/-- A fold of submission steps over a pair list containing a nonempty
group with an unpopulated band ends in an error, from any accumulator. -/
theorem foldlM_submit_error (glob : String → Nat → List String)
    (l : List (String × Nat)) (p : String × Nat) (hp : p ∈ l)
    (hfiles : glob p.1 p.2 ≠ []) (hband : BAND2ZOOM p.2 = none) :
    ∀ acc, ∃ b, l.foldlM (submitStep glob) acc = Except.error b := by
  induction l with
  | nil => exact absurd hp (List.not_mem_nil _)
  | cons q l ih =>
    intro acc
    rw [List.foldlM_cons]
    rcases List.mem_cons.mp hp with hq | hl
    · subst hq
      have hstep : submitStep glob acc p = Except.error p.2 := by
        unfold submitStep
        cases hg : glob p.1 p.2 with
        | nil => exact absurd hg hfiles
        | cons x xs => rw [hband]
      rw [hstep]
      exact ⟨p.2, rfl⟩
    · cases hstep : submitStep glob acc q with
      | error e => exact ⟨e, rfl⟩
      | ok acc' =>
        obtain ⟨b, hb⟩ := ih hl acc'
        exact ⟨b, hb⟩

/-- C10: if any intermediate geojson file matches a configured layer at a
band in 7..9, the `BAND2ZOOM` lookup in the submission loop of
`process_geojsons` raises a KeyError in the stage driver itself, so the
whole task-submission phase aborts with an error instead of isolating the
failure to that one group. -/
theorem processGeojsonsSubmit_keyError (glob : String → Nat → List String)
    (layer : String) (band : Nat) (hlayer : layer ∈ cfgLayerNames)
    (hband : band ∈ [7, 8, 9]) (hfiles : glob layer band ≠ []) :
    ∃ b, processGeojsonsSubmit glob = Except.error b := by
  have hbz : BAND2ZOOM band = none := by
    rcases List.mem_cons.mp hband with h | h
    · subst h; rfl
    rcases List.mem_cons.mp h with h2 | h2
    · subst h2; rfl
    rcases List.mem_cons.mp h2 with h3 | h3
    · subst h3; rfl
    · exact absurd h3 (List.not_mem_nil _)
  have hbr : band ∈ bandRange := by
    rcases List.mem_cons.mp hband with h | h
    · subst h; decide
    rcases List.mem_cons.mp h with h2 | h2
    · subst h2; decide
    rcases List.mem_cons.mp h2 with h3 | h3
    · subst h3; decide
    · exact absurd h3 (List.not_mem_nil _)
  have hpair : (layer, band) ∈ submitPairs := by
    unfold submitPairs
    rw [List.mem_flatten]
    refine ⟨bandRange.map (fun b => (layer, b)), List.mem_map.mpr ⟨layer, hlayer, rfl⟩, ?_⟩
    exact List.mem_map.mpr ⟨band, hbr, rfl⟩
  exact foldlM_submit_error glob submitPairs (layer, band) hpair hfiles hbz []

/-- A concrete run for the C10 witness: exactly one intermediate file, a
band-7 land-area geojson. -/
def globBand7 : String → Nat → List String :=
  fun l b => if l = "LNDARE" ∧ b = 7 then ["US7AK99_LNDARE.geojson"] else []

/-- Witness for C10: with one band-7 geojson on disk the submission phase
of the tiling stage ends in a KeyError. -/
theorem processGeojsonsSubmit_keyError_witness :
    ∃ b, processGeojsonsSubmit globBand7 = Except.error b :=
  processGeojsonsSubmit_keyError globBand7 "LNDARE" 7 (by decide)
    (by decide) (by simp [globBand7])

/-- A style layer rule as manipulated by `make_tile_config`: the keys the
code reads or writes (`id`, `source-layer`, `source`, `minzoom`,
`maxzoom`, each `none` when the key is absent from the JSON object) plus
the remaining payload, which `dict.copy()` carries over verbatim. -/
structure StyleLayer where
  id : String
  sourceLayer : Option String
  source : Option String
  minzoom : Option Nat
  maxzoom : Option Nat
  rest : List (String × String)
  deriving DecidableEq, Repr

/-- `int(s[-1])`: the band parsed from the last character of an archive
stem (encdl.py lines 320 and 349). `none` models the IndexError on an
empty stem and the ValueError on a non-digit character. -/
def stemBand (s : String) : Option Nat :=
  match s.data.getLast? with
  | some c => if c.isDigit then some (c.toNat - 48) else none
  | none => none

/-- The template-rule predicate of `make_tile_config` (encdl.py lines
337-345): a layer that carries a `source-layer` key and no `source` key. -/
def isTemplateRule (l : StyleLayer) : Bool :=
  l.sourceLayer.isSome && l.source.isNone

/-- The body of the synthesis loop of `make_tile_config` (encdl.py lines
347-358) for one template rule and one archive stem: copy the rule,
append the stem to its id, bind its source to the archive, then add the
zoom bounds that are not already pinned when the band is not extremal
among the bands present. `none` models the exceptions the body can raise
(ValueError from `int`, `max` or `min`, KeyError from `BAND2ZOOM`). -/
def synthLayer (bands : List Nat) (l : StyleLayer) (stem : String) :
    Option StyleLayer :=
  match stemBand stem, bands.max?, bands.min? with
  | some band, some bmax, some bmin =>
    let l1 : StyleLayer :=
      { l with id := l.id ++ "-" ++ stem, source := some stem }
    let withMax : Option StyleLayer :=
      match l1.maxzoom with
      | some _ => some l1
      | none =>
        if band < bmax then
          match BAND2ZOOM band with
          | some z => some { l1 with maxzoom := some z.2 }
          | none => none
        else some l1
    match withMax with
    | none => none
    | some l2 =>
      match l2.minzoom with
      | some _ => some l2
      | none =>
        if bmin < band then
          match BAND2ZOOM band with
          | some z => some { l2 with minzoom := some z.1 }
          | none => none
        else some l2
  | _, _, _ => none

/-- A Python loop over a list whose body can raise: collect the results
in order, abort at the first exception. -/
def collectSome {α β : Type} (f : α → Option β) : List α → Option (List β)
  | [] => some []
  | a :: as =>
    (f a).bind fun b => (collectSome f as).bind fun bs => some (b :: bs)

/-- The layer-list transformation of `make_tile_config` for one style
document (encdl.py lines 320 and 337-359): `bands` is the list of bands
parsed from the archive stems, the template rules are removed from the
layer list, every other layer is kept unchanged, and for each template
rule (outer loop) and each archive (inner loop) one synthesized layer is
appended. -/
def makeStyleLayers (slayers : List StyleLayer) (data : List String) :
    Option (List StyleLayer) :=
  (collectSome stemBand data).bind fun bands =>
    (collectSome (fun l => collectSome (synthLayer bands l) data)
        (slayers.filter isTemplateRule)).bind fun synths =>
      some (slayers.filter (fun l => !(isTemplateRule l)) ++ synths.flatten)

/-- C5: a synthesized layer for an archive of band `band`, from a rule
that pins neither zoom bound, receives the table maxzoom exactly when the
band is below the maximum band present and the table minzoom exactly when
it is above the minimum band present. -/
theorem synthLayer_zoom_partition (bands : List Nat) (bmin bmax : Nat)
    (hmin : bands.min? = some bmin) (hmax : bands.max? = some bmax)
    (l : StyleLayer) (hl1 : l.maxzoom = none) (hl2 : l.minzoom = none)
    (stem : String) (band : Nat) (hstem : stemBand stem = some band)
    (z : Nat × Nat) (hz : BAND2ZOOM band = some z) :
    ∃ l', synthLayer bands l stem = some l' ∧
      l'.maxzoom = (if band < bmax then some z.2 else none) ∧
      l'.minzoom = (if bmin < band then some z.1 else none) := by
  unfold synthLayer
  rw [hstem, hmax, hmin]
  by_cases hb1 : band < bmax <;> by_cases hb2 : bmin < band <;>
    simp [hl1, hl2, hz, hb1, hb2]

/-- Witness for C5 with bands 2, 3 and 5 present: the middle band 3 gets
both bounds from the table. -/
theorem synthLayer_zoom_partition_witness :
    ∃ l', synthLayer [2, 3, 5]
        { id := "land", sourceLayer := some "LNDARE", source := none,
          minzoom := none, maxzoom := none, rest := [] } "BAND3" = some l' ∧
      l'.maxzoom = (if 3 < 5 then some (10, 12).2 else none) ∧
      l'.minzoom = (if 2 < 3 then some (10, 12).1 else none) :=
  synthLayer_zoom_partition [2, 3, 5] 2 5 rfl rfl
    { id := "land", sourceLayer := some "LNDARE", source := none,
      minzoom := none, maxzoom := none, rest := [] } rfl rfl
    "BAND3" 3 rfl (10, 12) rfl

/-- The concrete result of the synthesis body for the band-1 archive of a
run over bands 1 and 2 (`BAND2ZOOM[1] = (0, 6)`): an unpinned maxzoom
becomes 6, minzoom is left alone since 1 is the minimum band. -/
def synthBand1 (l : StyleLayer) : StyleLayer :=
  { l with
    id := l.id ++ "-" ++ "BAND1"
    source := some "BAND1"
    maxzoom := some (l.maxzoom.getD 6) }

/-- The concrete result of the synthesis body for the band-2 archive of a
run over bands 1 and 2 (`BAND2ZOOM[2] = (6, 10)`): an unpinned minzoom
becomes 6, maxzoom is left alone since 2 is the maximum band. -/
def synthBand2 (l : StyleLayer) : StyleLayer :=
  { l with
    id := l.id ++ "-" ++ "BAND2"
    source := some "BAND2"
    minzoom := some (l.minzoom.getD 6) }

/-- On the bands-1-and-2 run the synthesis body never raises and produces
`synthBand1`. -/
theorem synthLayer_band1 (l : StyleLayer) :
    synthLayer [1, 2] l "BAND1" = some (synthBand1 l) := by
  obtain ⟨i, sl, src, mnz, mxz, r⟩ := l
  cases mnz <;> cases mxz <;> rfl

/-- On the bands-1-and-2 run the synthesis body never raises and produces
`synthBand2`. -/
theorem synthLayer_band2 (l : StyleLayer) :
    synthLayer [1, 2] l "BAND2" = some (synthBand2 l) := by
  obtain ⟨i, sl, src, mnz, mxz, r⟩ := l
  cases mnz <;> cases mxz <;> rfl

/-- The inner archive loop on the bands-1-and-2 run. -/
theorem collectSome_synthLayer_band12 (l : StyleLayer) :
    collectSome (synthLayer [1, 2] l) ["BAND1", "BAND2"] =
      some [synthBand1 l, synthBand2 l] := by
  simp [collectSome, synthLayer_band1, synthLayer_band2]

/-- A loop whose body never raises collects exactly the mapped list. -/
theorem collectSome_eq_map {α β : Type} (f : α → Option β) (g : α → β)
    (h : ∀ a, f a = some (g a)) (l : List α) : collectSome f l = some (l.map g) := by
  induction l with
  | nil => rfl
  | cons a as ih => simp only [collectSome, h a, ih, List.map_cons, Option.some_bind']

/-- The outer template-rule loop on the bands-1-and-2 run. -/
theorem collectSome_templates_band12 (ts : List StyleLayer) :
    collectSome (fun l => collectSome (synthLayer [1, 2] l) ["BAND1", "BAND2"]) ts =
      some (ts.map (fun l => [synthBand1 l, synthBand2 l])) :=
  collectSome_eq_map _ _ (fun l => collectSome_synthLayer_band12 l) ts

/-- C6: for any style layer list containing a template rule (a literal
source-layer, no source) and the archives of a bands-1-and-2 run, the
output layer list drops the original rule and contains, per archive, a
copy of the rule whose id is suffixed with the archive stem and whose
source is bound to that archive. -/
theorem makeStyleLayers_expands_templates (slayers : List StyleLayer)
    (l0 : StyleLayer) (h0 : l0 ∈ slayers)
    (hsl : l0.sourceLayer.isSome = true) (hsrc : l0.source = none) :
    ∃ out, makeStyleLayers slayers ["BAND1", "BAND2"] = some out ∧
      l0 ∉ out ∧
      (∀ stem ∈ ["BAND1", "BAND2"], ∃ l', l' ∈ out ∧
        l'.id = l0.id ++ "-" ++ stem ∧ l'.source = some stem ∧
        l'.sourceLayer = l0.sourceLayer ∧ l'.rest = l0.rest) := by
  have htempl : isTemplateRule l0 = true := by
    unfold isTemplateRule
    rw [hsl, hsrc]
    rfl
  have hbands : collectSome stemBand ["BAND1", "BAND2"] = some [1, 2] := rfl
  refine ⟨(slayers.filter (fun l => !(isTemplateRule l))) ++
      ((slayers.filter isTemplateRule).map
        (fun l => [synthBand1 l, synthBand2 l])).flatten, ?_, ?_, ?_⟩
  · simp only [makeStyleLayers, hbands, Option.some_bind', collectSome_templates_band12]
  · intro hcon
    rcases List.mem_append.mp hcon with hk | hs
    · have := (List.mem_filter.mp hk).2
      rw [htempl] at this
      exact Bool.noConfusion this
    · obtain ⟨s, hsmem, hls⟩ := List.mem_flatten.mp hs
      obtain ⟨t, _, hts⟩ := List.mem_map.mp hsmem
      subst hts
      rcases List.mem_cons.mp hls with h1 | h1
      · have : l0.source = some "BAND1" := by rw [h1]; rfl
        rw [hsrc] at this
        exact Option.noConfusion this
      rcases List.mem_cons.mp h1 with h2 | h2
      · have : l0.source = some "BAND2" := by rw [h2]; rfl
        rw [hsrc] at this
        exact Option.noConfusion this
      · exact absurd h2 (List.not_mem_nil _)
  · have hl0t : l0 ∈ slayers.filter isTemplateRule :=
      List.mem_filter.mpr ⟨h0, htempl⟩
    have hgrp : [synthBand1 l0, synthBand2 l0] ∈
        (slayers.filter isTemplateRule).map
          (fun l => [synthBand1 l, synthBand2 l]) :=
      List.mem_map.mpr ⟨l0, hl0t, rfl⟩
    intro stem hstem
    rcases List.mem_cons.mp hstem with h1 | h1
    · subst h1
      refine ⟨synthBand1 l0, ?_, rfl, rfl, rfl, rfl⟩
      exact List.mem_append_right _
        (List.mem_flatten.mpr ⟨_, hgrp, List.mem_cons_self _ _⟩)
    rcases List.mem_cons.mp h1 with h2 | h2
    · subst h2
      refine ⟨synthBand2 l0, ?_, rfl, rfl, rfl, rfl⟩
      exact List.mem_append_right _
        (List.mem_flatten.mpr ⟨_, hgrp,
          List.mem_cons_of_mem _ (List.mem_cons_self _ _)⟩)
    · exact absurd h2 (List.not_mem_nil _)

/-- Witness for C6 on the spec example: one template rule named land over
the LNDARE source layer, archives BAND1 and BAND2. -/
theorem makeStyleLayers_expands_templates_witness :
    ∃ out, makeStyleLayers
        [{ id := "land", sourceLayer := some "LNDARE", source := none,
           minzoom := none, maxzoom := none, rest := [] }]
        ["BAND1", "BAND2"] = some out ∧
      ({ id := "land", sourceLayer := some "LNDARE", source := none,
         minzoom := none, maxzoom := none, rest := [] } : StyleLayer) ∉ out ∧
      (∀ stem ∈ ["BAND1", "BAND2"], ∃ l', l' ∈ out ∧
        l'.id = "land" ++ "-" ++ stem ∧ l'.source = some stem ∧
        l'.sourceLayer = some "LNDARE" ∧ l'.rest = []) :=
  makeStyleLayers_expands_templates
    [{ id := "land", sourceLayer := some "LNDARE", source := none,
       minzoom := none, maxzoom := none, rest := [] }]
    { id := "land", sourceLayer := some "LNDARE", source := none,
      minzoom := none, maxzoom := none, rest := [] }
    (List.mem_singleton.mpr rfl) rfl rfl

end Encdl
